import Mathlib

/-!
Verification of the tide-clock rendering core (`tide-clock/src`), shallowly
embedded in Lean.  `f32` values are modelled as rationals, Rust `assert!`
failures and `panic`-on-underflow arithmetic as `Option`, timestamps as
integer seconds, and machine-integer wraparound with explicit `% 2 ^ 32`.
-/

namespace TideClock

/-! ### maths.rs -/

/-- Body of `maths::clamp` after its `assert!(min <= max)` has passed:
`x = value; if x < min { x = min }; if x > max { x = max }`. -/
def clamp_val (value lo hi : ℚ) : ℚ :=
  let x := if value < lo then lo else value
  if x > hi then hi else x

/-- Model of `maths::clamp`; the `assert!(min <= max)` is modelled as `none`. -/
def clamp (value lo hi : ℚ) : Option ℚ :=
  if lo ≤ hi then some (clamp_val value lo hi) else none

/-- Rust `f32::round`: nearest integer, ties rounded away from zero. -/
def f32_round (q : ℚ) : ℤ :=
  if 0 ≤ q then ⌊q + 1 / 2⌋ else -⌊1 / 2 - q⌋

/-- Model of `maths::lerp`.  Its internal call `clamp(t, 0, 1)` always passes the
clamp assertion, so the model is total. -/
def lerp (t : ℚ) (lo hi : ℤ) : ℤ :=
  let t01 := clamp_val t 0 1
  f32_round (t01 * ((hi : ℚ) - (lo : ℚ)) + (lo : ℚ))

/-- Model of `maths::inverse_lerp`; its `assert!(min < max)` is modelled as `none`. -/
def inverse_lerp (value lo hi : ℚ) : Option ℚ :=
  if lo < hi then (clamp value lo hi).map (fun c => (c - lo) / (hi - lo))
  else none

theorem clamp_val_le {value lo hi : ℚ} (h : lo ≤ hi) : clamp_val value lo hi ≤ hi := by
  unfold clamp_val
  dsimp only
  split_ifs <;> linarith

theorem le_clamp_val {value lo hi : ℚ} (h : lo ≤ hi) : lo ≤ clamp_val value lo hi := by
  unfold clamp_val
  dsimp only
  split_ifs <;> linarith

theorem clamp_val_left {lo hi : ℚ} (h : lo ≤ hi) : clamp_val lo lo hi = lo := by
  unfold clamp_val
  simp [lt_irrefl, not_lt.mpr h]

theorem clamp_val_right {lo hi : ℚ} (h : lo ≤ hi) : clamp_val hi lo hi = hi := by
  unfold clamp_val
  simp [not_lt.mpr h, lt_irrefl]

/-- C2: for marks `lo < hi` the normalizer returns a value in `[0, 1]`,
hitting `0` at `lo` and `1` at `hi`.  (The `lo = hi` case of the claim fails:
`inverse_lerp` asserts `min < max`, see the counterexample.) -/
theorem C2_inverse_lerp_range (v lo hi : ℚ) (h : lo < hi) :
    (∃ r, inverse_lerp v lo hi = some r ∧ 0 ≤ r ∧ r ≤ 1) ∧
    inverse_lerp lo lo hi = some 0 ∧ inverse_lerp hi lo hi = some 1 := by
  have hle : lo ≤ hi := le_of_lt h
  have hpos : 0 < hi - lo := sub_pos.mpr h
  unfold inverse_lerp clamp
  simp only [if_pos h, if_pos hle, Option.map_some]
  refine ⟨⟨(clamp_val v lo hi - lo) / (hi - lo), rfl, ?_, ?_⟩, ?_, ?_⟩
  · exact div_nonneg (sub_nonneg.mpr (le_clamp_val hle)) (le_of_lt hpos)
  · exact (div_le_one hpos).mpr (sub_le_sub_right (clamp_val_le hle) lo)
  · simp [clamp_val_left hle]
  · simp [clamp_val_right hle]
    rw [div_self (ne_of_gt hpos)]

/-- C2 witness: concrete instantiation at `v = 1/2`, `lo = 0`, `hi = 1`. -/
theorem C2_witness :
    (0 : ℚ) < 1 ∧
    ((∃ r, inverse_lerp (1 / 2) 0 1 = some r ∧ 0 ≤ r ∧ r ≤ 1) ∧
      inverse_lerp 0 0 1 = some 0 ∧ inverse_lerp 1 0 1 = some 1) :=
  ⟨by norm_num, C2_inverse_lerp_range (1 / 2) 0 1 (by norm_num)⟩

/-- C2 counterexample: the claim admits `lo = hi` as a valid input, but the
code's `assert!(min < max)` fails there (panic), returning no value at all. -/
theorem C2_counterexample : inverse_lerp 0 0 0 = none := by decide

/-! ### tides/mod.rs — data types -/

structure TideHeightData where
  dt : ℕ
  date : ℤ
  height : ℚ
deriving DecidableEq

structure TideExtremesData where
  dt : ℕ
  date : ℤ
  height : ℚ
  extreme_type : String
deriving DecidableEq

structure TideResponse where
  station : String
  heights : List TideHeightData
  extremes : List TideExtremesData
deriving DecidableEq

structure WaterMarkData where
  high_water : ℚ
  low_water : ℚ
  current_water : ℚ
deriving DecidableEq

structure TideExtremeGraphData where
  index : ℕ
  date : ℤ
deriving DecidableEq

structure TideModel where
  water_mark : WaterMarkData
  normalised_heights : List ℚ
  dates : List ℤ
  extremes : List TideExtremeGraphData
deriving DecidableEq

inductive DataFreshness where
  | Fresh
  | NeedsUpdate
deriving DecidableEq

structure TideModelWindow where
  water_mark : WaterMarkData
  normalised_heights : List ℚ
  dates : List ℤ
  extremes : List TideExtremeGraphData
  start_index : ℕ
deriving DecidableEq

/-- Model of `TideResponse::nil`: the empty response. -/
def TideResponse.nil : TideResponse :=
  { station := "", heights := [], extremes := [] }

/-! ### tides/mod.rs — operations -/

/-- Model of `find_abs_diff` (absolute difference of `u32` timestamps). -/
def find_abs_diff (a b : ℕ) : ℕ := if a > b then a - b else b - a

/-- Rust `Iterator::min_by_key`: the first element attaining the minimal
key (on ties the earlier element is kept). -/
def min_by_key {α : Type _} (key : α → ℕ) : List α → Option α
  | [] => none
  | a :: rest =>
    match min_by_key key rest with
    | none => some a
    | some b => if key a ≤ key b then some a else some b

/-- Model of `TideModel::find_time_index`: `min_by_key` over the enumerated dates
with key `|now − date|` in seconds; returns the index component. -/
def find_time_index (dates : List ℤ) (now : ℤ) : Option ℕ :=
  (min_by_key (fun kvp => (now - kvp.2).natAbs) dates.enum).map Prod.fst

/-- Model of `TideModel::get_water_mark`: session min/max height, `(0, 0)` when the
sample list is empty; `current_water` is initialised to `2.0`. -/
def get_water_mark (heights : List TideHeightData) : WaterMarkData :=
  { high_water := ((heights.map (fun h => h.height)).max?).getD 0
    low_water := ((heights.map (fun h => h.height)).min?).getD 0
    current_water := 2 }

/-- Model of `TideModel::new`.  The `inverse_lerp` calls inside it can fail their
`assert!(min < max)` (when every sample height is equal), so the result is
`Option`; each extreme event is mapped to the enumerated height whose `dt`
is nearest by `find_abs_diff` (`min_by_key`, first minimum). -/
def TideModel.new (data : TideResponse) : Option TideModel :=
  let wm := get_water_mark data.heights
  (data.heights.mapM (fun h => inverse_lerp h.height wm.low_water wm.high_water)).map
    (fun nh =>
      { water_mark := wm
        normalised_heights := nh
        dates := data.heights.map (fun h => h.date)
        extremes := data.extremes.filterMap (fun ex =>
          (min_by_key (fun kvp => find_abs_diff kvp.2.dt ex.dt) data.heights.enum).map
            (fun kvp => { index := kvp.1, date := ex.date })) })

/-- Model of `TideModel::get_window`: anchor `now − 8h` (the `checked_sub_signed`
fallback never fires over ℤ); `NeedsUpdate` when the date lookup fails or
fewer than 112 samples remain from the anchor.  For models built by
`TideModel.new` the anchor index is at most the length, so the `usize`
subtraction never underflows and ℕ subtraction is faithful. -/
def get_window (m : TideModel) (now : ℤ) : TideModelWindow × DataFreshness :=
  let start_utc := now - 8 * 3600
  let p : ℕ × DataFreshness :=
    match find_time_index m.dates start_utc with
    | some start_index =>
      if m.normalised_heights.length - start_index < 112 then
        (start_index, DataFreshness.NeedsUpdate)
      else (start_index, DataFreshness.Fresh)
    | none => (0, DataFreshness.NeedsUpdate)
  ({ water_mark := m.water_mark
     normalised_heights := m.normalised_heights.drop p.1
     dates := m.dates.drop p.1
     extremes := m.extremes
     start_index := p.1 }, p.2)

/-- Model of `TideModel::get_date_range`. -/
def get_date_range (m : TideModel) : Option (ℤ × ℤ) :=
  match m.dates.head?, m.dates.getLast? with
  | some first, some last => some (first, last)
  | _, _ => none

/-- Model of `TideModel::get_current_norm_height`: normalized height of the nearest
sample, or the `-10` sentinel ("Essentially marker will be at zero"). -/
def get_current_norm_height (m : TideModel) (now : ℤ) : ℚ :=
  match find_time_index m.dates now with
  | some index =>
    match m.normalised_heights.get? index with
    | some h => h
    | none => -10
  | none => -10

/-- Model of `TideModelWindow::extremes`: the suffix of the extreme list starting at
the first entry with `index >= start_index` (empty if none qualifies). -/
def extremes_query : List TideExtremeGraphData → ℕ → List TideExtremeGraphData
  | [], _ => []
  | e :: rest, start =>
    if e.index ≥ start then e :: rest else extremes_query rest start

/-- The window's extreme query, `TideModelWindow::extremes`. -/
def TideModelWindow.extremes_view (w : TideModelWindow) : List TideExtremeGraphData :=
  extremes_query w.extremes w.start_index

/-- Model of `TideModelWindow::get_extreme_index_in_window` as compiled in release
mode: wrapping `u32` subtraction `extreme_index - start_index`. -/
def get_extreme_index_in_window_wrap (start_index extreme_index : ℕ) : ℕ :=
  (extreme_index + 2 ^ 32 - start_index) % 2 ^ 32

/-- The same subtraction in debug mode: `none` models the underflow panic. -/
def get_extreme_index_in_window_checked (start_index extreme_index : ℕ) : Option ℕ :=
  if start_index ≤ extreme_index then some (extreme_index - start_index) else none

/-! ### Properties of `min_by_key` -/

theorem min_by_key_eq_none_iff {α : Type _} (key : α → ℕ) (l : List α) :
    min_by_key key l = none ↔ l = [] := by
  cases l with
  | nil => simp [min_by_key]
  | cons a rest =>
    simp only [min_by_key]
    cases hmk : min_by_key key rest with
    | none => simp
    | some b =>
      refine iff_of_false ?_ (by simp)
      dsimp only
      split_ifs <;> simp

/-- Lemma: `min_by_key` returns the first element attaining the minimal key:
its position `i` is such that every element is `≥` and every strictly
earlier element is strictly `>`. -/
theorem min_by_key_spec {α : Type _} (key : α → ℕ) :
    ∀ (l : List α) (a : α), min_by_key key l = some a →
      ∃ i, ∃ hi : i < l.length, l.get ⟨i, hi⟩ = a ∧
        (∀ j (hj : j < l.length), key a ≤ key (l.get ⟨j, hj⟩)) ∧
        (∀ j (hj : j < l.length), j < i → key a < key (l.get ⟨j, hj⟩)) := by
  intro l
  induction l with
  | nil => intro a h; simp [min_by_key] at h
  | cons x rest ih =>
    intro a h
    simp only [min_by_key] at h
    cases hmk : min_by_key key rest with
    | none =>
      rw [hmk] at h
      dsimp only at h
      have hrest : rest = [] := (min_by_key_eq_none_iff key rest).mp hmk
      subst hrest
      simp only [Option.some.injEq] at h
      subst h
      refine ⟨0, by simp, rfl, ?_, ?_⟩
      · intro j hj
        have hj0 : j = 0 := by simpa using hj
        subst hj0
        exact le_refl _
      · intro j hj hji
        omega
    | some b =>
      rw [hmk] at h
      dsimp only at h
      obtain ⟨i', hi', hget', hmin', hfirst'⟩ := ih b hmk
      split_ifs at h with hxb
      · simp only [Option.some.injEq] at h
        subst h
        refine ⟨0, by simp, rfl, ?_, ?_⟩
        · intro j hj
          cases j with
          | zero => exact le_refl _
          | succ k =>
            have hk : k < rest.length := by simpa using hj
            exact le_trans hxb (hget' ▸ hmin' k hk)
        · intro j hj hji
          omega
      · simp only [Option.some.injEq] at h
        subst h
        have hlt : key b < key x := lt_of_not_le hxb
        refine ⟨i' + 1, by simpa using Nat.succ_lt_succ hi', ?_, ?_, ?_⟩
        · simpa using hget'
        · intro j hj
          cases j with
          | zero => exact le_of_lt hlt
          | succ k =>
            have hk : k < rest.length := by simpa using hj
            exact hmin' k hk
        · intro j hj hji
          cases j with
          | zero => exact hlt
          | succ k =>
            have hk : k < rest.length := by simpa using hj
            exact hfirst' k hk (by omega)

/-- Bridge: `min_by_key` over an enumerated list, with a key that only
reads the element, returns the pair `(i, l[i])` of the earliest
key-minimal index. -/
theorem min_by_key_enum_spec {α : Type _} (key : α → ℕ) (l : List α) (d : α) (p : ℕ × α)
    (h : min_by_key (fun kvp => key kvp.2) l.enum = some p) :
    p.1 < l.length ∧ p.2 = l.getD p.1 d ∧
      (∀ j, j < l.length → key p.2 ≤ key (l.getD j d)) ∧
      (∀ j, j < p.1 → key p.2 < key (l.getD j d)) := by
  obtain ⟨i, hi, hget, hmin, hfirst⟩ := min_by_key_spec _ l.enum p h
  have hlen : l.enum.length = l.length := List.enum_length
  have hil : i < l.length := hlen ▸ hi
  have hD : ∀ (j : ℕ) (hj : j < l.length), l.getD j d = l.get ⟨j, hj⟩ := by
    intro j hj
    rw [List.getD_eq_getElem l d hj, List.get_eq_getElem]
  have hp : p = (i, l.get ⟨i, hil⟩) := by
    rw [← hget, List.get_eq_getElem, List.getElem_enum]
    simp [List.get_eq_getElem]
  subst hp
  refine ⟨hil, ?_, ?_, ?_⟩
  · show l.get ⟨i, hil⟩ = l.getD i d
    rw [hD i hil]
  · intro j hj
    have hje : j < l.enum.length := hlen ▸ hj
    have hm := hmin j hje
    simp only [List.get_eq_getElem, List.getElem_enum] at hm
    rw [hD j hj]
    simpa [List.get_eq_getElem] using hm
  · intro j hj
    have hjl : j < l.length := lt_trans hj hil
    have hje : j < l.enum.length := hlen ▸ hjl
    have hf := hfirst j hje hj
    simp only [List.get_eq_getElem, List.getElem_enum] at hf
    rw [hD j hjl]
    simpa [List.get_eq_getElem] using hf

/-- A successful `Option`-valued `mapM` preserves the list length. -/
theorem mapM_option_length {α β : Type _} (f : α → Option β) :
    ∀ (l : List α) (res : List β), l.mapM f = some res → res.length = l.length := by
  intro l
  induction l with
  | nil =>
    intro res h
    rw [← List.mapM'_eq_mapM] at h
    simp only [List.mapM', Option.pure_def, Option.some.injEq] at h
    subst h
    rfl
  | cons a rest ih =>
    intro res h
    rw [← List.mapM'_eq_mapM] at h
    simp only [List.mapM', Option.pure_def, Option.bind_eq_bind, Option.bind_eq_some] at h
    obtain ⟨b, hfa, bs, hbs, hres⟩ := h
    rw [List.mapM'_eq_mapM] at hbs
    simp only [Option.some.injEq] at hres
    subst hres
    simp [ih bs hbs]

/-- Default element for `getD` on the sample list (indices proved in range,
so it is never selected). -/
def default_height : TideHeightData := { dt := 0, date := 0, height := 0 }

/-- C9: `find_time_index` returns `none` iff the date list is empty;
otherwise it returns a valid index whose date minimizes the absolute time
difference to `now`, choosing the earliest index on exact ties; and every
extreme stored by `TideModel::new` carries a valid index into the model's
series, mapped from a source extreme event to the sample whose `dt` has
minimal absolute difference, earliest on exact ties. -/
theorem C9_nearest_lookup (dates : List ℤ) (now : ℤ) :
    (find_time_index dates now = none ↔ dates = []) ∧
    (∀ i, find_time_index dates now = some i →
      i < dates.length ∧
      (∀ j, j < dates.length →
        (now - dates.getD i 0).natAbs ≤ (now - dates.getD j 0).natAbs) ∧
      (∀ j, j < i → (now - dates.getD i 0).natAbs < (now - dates.getD j 0).natAbs)) ∧
    (∀ (response : TideResponse) (m : TideModel), TideModel.new response = some m →
      m.normalised_heights.length = response.heights.length ∧
      ∀ e ∈ m.extremes,
        e.index < m.normalised_heights.length ∧
        ∃ ex ∈ response.extremes, e.date = ex.date ∧
          (∀ j, j < response.heights.length →
            find_abs_diff (response.heights.getD e.index default_height).dt ex.dt ≤
              find_abs_diff (response.heights.getD j default_height).dt ex.dt) ∧
          (∀ j, j < e.index →
            find_abs_diff (response.heights.getD e.index default_height).dt ex.dt <
              find_abs_diff (response.heights.getD j default_height).dt ex.dt)) := by
  refine ⟨?_, ?_, ?_⟩
  · unfold find_time_index
    rw [Option.map_eq_none', min_by_key_eq_none_iff, List.enum_eq_nil]
  · intro i hfi
    unfold find_time_index at hfi
    obtain ⟨p, hp, hp1⟩ := Option.map_eq_some'.mp hfi
    obtain ⟨hlt, hsnd, hmin, hfirst⟩ :=
      min_by_key_enum_spec (fun t => (now - t).natAbs) dates 0 p hp
    subst hp1
    refine ⟨hlt, ?_, ?_⟩
    · intro j hj
      have := hmin j hj
      rw [hsnd] at this
      exact this
    · intro j hj
      have := hfirst j hj
      rw [hsnd] at this
      exact this
  · intro response m hm
    unfold TideModel.new at hm
    obtain ⟨nh, hnh, hmodel⟩ := Option.map_eq_some'.mp hm
    have hlen : nh.length = response.heights.length := mapM_option_length _ _ nh hnh
    subst hmodel
    refine ⟨hlen, ?_⟩
    intro e he
    simp only [List.mem_filterMap] at he
    obtain ⟨ex, hexmem, hex⟩ := he
    obtain ⟨p, hp, hpe⟩ := Option.map_eq_some'.mp hex
    obtain ⟨hlt, hsnd, hmin, hfirst⟩ :=
      min_by_key_enum_spec (fun hd => find_abs_diff hd.dt ex.dt) response.heights
        default_height p hp
    subst hpe
    dsimp only
    refine ⟨by simpa [hlen] using hlt, ex, hexmem, rfl, ?_, ?_⟩
    · intro j hj
      have hmj := hmin j hj
      rw [hsnd] at hmj
      exact hmj
    · intro j hj
      have hfj := hfirst j hj
      rw [hsnd] at hfj
      exact hfj

/-- A two-sample response with one extreme event at `dt = 3000`, nearer to
the second sample (`dt = 3600`, distance 600) than the first (`dt = 0`,
distance 3000). -/
def respC9 : TideResponse :=
  { station := ""
    heights :=
      [ { dt := 0, date := 0, height := 0 }
      , { dt := 3600, date := 3600, height := 1 } ]
    extremes := [ { dt := 3000, date := 3000, height := 1, extreme_type := "High" } ] }

/-- The model `TideModel::new` builds from `respC9`: the extreme maps to
sample index 1. -/
def modelC9 : TideModel :=
  { water_mark := { high_water := 1, low_water := 0, current_water := 2 }
    normalised_heights := [0, 1]
    dates := [0, 3600]
    extremes := [TideExtremeGraphData.mk 1 3000] }

/-- C9 witness: dates `[10, 4, 4]` at `now = 0`: index 1 is nearest, the
exact tie with index 2 is broken toward the earlier index, and index 0 is
strictly farther; and at model build the extreme of `respC9` lands on the
nearer sample index 1, with the correct minimality inequality. -/
theorem C9_witness :
    find_time_index [(10 : ℤ), 4, 4] 0 = some 1 ∧ 1 < 3 ∧
    ((0 - ([(10 : ℤ), 4, 4]).getD 1 0).natAbs ≤
      (0 - ([(10 : ℤ), 4, 4]).getD 0 0).natAbs) ∧
    ((0 - ([(10 : ℤ), 4, 4]).getD 1 0).natAbs <
      (0 - ([(10 : ℤ), 4, 4]).getD 0 0).natAbs) ∧
    TideModel.new respC9 = some modelC9 ∧
    modelC9.normalised_heights.length = respC9.heights.length ∧
    find_abs_diff (respC9.heights.getD 1 default_height).dt 3000 ≤
      find_abs_diff (respC9.heights.getD 0 default_height).dt 3000 := by
  have hsome : find_time_index [(10 : ℤ), 4, 4] 0 = some 1 := by decide
  obtain ⟨hlt, hmin, hfirst⟩ := (C9_nearest_lookup [(10 : ℤ), 4, 4] 0).2.1 1 hsome
  have hnew : TideModel.new respC9 = some modelC9 := by
    norm_num [TideModel.new, get_water_mark, respC9, modelC9, List.mapM, List.mapM.loop,
      inverse_lerp, clamp, clamp_val, min_by_key, find_abs_diff, List.enum, List.enumFrom]
    decide
  obtain ⟨hlen9, hext⟩ := (C9_nearest_lookup [(10 : ℤ), 4, 4] 0).2.2 respC9 modelC9 hnew
  obtain ⟨hvalid, ex, hexmem, hdate, hminx, hfirstx⟩ :=
    hext (TideExtremeGraphData.mk 1 3000) (by decide)
  have hexdt : ex.dt = 3000 := by
    have : ex = { dt := 3000, date := 3000, height := 1, extreme_type := "High" } := by
      simpa [respC9] using hexmem
    rw [this]
  refine ⟨hsome, hlt, hmin 0 (by decide), hfirst 0 (by decide), hnew, hlen9, ?_⟩
  have := hminx 0 (by decide)
  rw [hexdt] at this
  exact this

/-- C10: the window re-expression `extreme_index - start_index` is exact
`u32` subtraction under the precondition `start_index ≤ extreme_index`;
below it the checked (debug) subtraction panics and the wrapping (release)
subtraction wraps around `2^32`. -/
theorem C10_extreme_index_in_window (start_index extreme_index : ℕ)
    (hs : start_index < 2 ^ 32) (he : extreme_index < 2 ^ 32) :
    (start_index ≤ extreme_index →
      get_extreme_index_in_window_wrap start_index extreme_index =
        extreme_index - start_index ∧
      get_extreme_index_in_window_checked start_index extreme_index =
        some (extreme_index - start_index)) ∧
    (extreme_index < start_index →
      get_extreme_index_in_window_checked start_index extreme_index = none ∧
      get_extreme_index_in_window_wrap start_index extreme_index =
        2 ^ 32 + extreme_index - start_index ∧
      2 ^ 32 - start_index ≤ get_extreme_index_in_window_wrap start_index extreme_index) := by
  unfold get_extreme_index_in_window_wrap get_extreme_index_in_window_checked
  constructor
  · intro hle
    refine ⟨by omega, by simp [hle]⟩
  · intro hlt
    refine ⟨by simp [not_le.mpr hlt, hlt], by omega, by omega⟩

/-- C10 witness: in-range case `5 - 3 = 2` and underflow case `2 - 7`. -/
theorem C10_witness :
    ((3 : ℕ) < 2 ^ 32 ∧ (5 : ℕ) < 2 ^ 32 ∧ (3 : ℕ) ≤ 5 ∧
      get_extreme_index_in_window_wrap 3 5 = 2 ∧
      get_extreme_index_in_window_checked 3 5 = some 2) ∧
    ((7 : ℕ) < 2 ^ 32 ∧ (2 : ℕ) < 2 ^ 32 ∧ (2 : ℕ) < 7 ∧
      get_extreme_index_in_window_checked 7 2 = none ∧
      get_extreme_index_in_window_wrap 7 2 = 2 ^ 32 + 2 - 7) := by
  constructor
  · have h := (C10_extreme_index_in_window 3 5 (by norm_num) (by norm_num)).1 (by norm_num)
    exact ⟨by norm_num, by norm_num, by norm_num, h.1, h.2⟩
  · have h := (C10_extreme_index_in_window 7 2 (by norm_num) (by norm_num)).2 (by norm_num)
    exact ⟨by norm_num, by norm_num, by norm_num, h.1, h.2.1⟩

/-- C5: `get_window` anchors at `now − 8h`; freshness is `NeedsUpdate` iff
the anchor lookup fails or fewer than 112 samples remain from the anchor
index, and `Fresh` iff the lookup succeeds with at least 112 samples
remaining. -/
theorem C5_window_freshness (m : TideModel) (now : ℤ) :
    ((get_window m now).2 = DataFreshness.NeedsUpdate ↔
      find_time_index m.dates (now - 8 * 3600) = none ∨
      ∃ si, find_time_index m.dates (now - 8 * 3600) = some si ∧
        m.normalised_heights.length - si < 112) ∧
    ((get_window m now).2 = DataFreshness.Fresh ↔
      ∃ si, find_time_index m.dates (now - 8 * 3600) = some si ∧
        112 ≤ m.normalised_heights.length - si) := by
  have hsnd : (get_window m now).2 =
      (match find_time_index m.dates (now - 8 * 3600) with
        | some start_index =>
          if m.normalised_heights.length - start_index < 112 then
            DataFreshness.NeedsUpdate
          else DataFreshness.Fresh
        | none => DataFreshness.NeedsUpdate) := by
    unfold get_window
    dsimp only
    cases find_time_index m.dates (now - 8 * 3600) with
    | none => rfl
    | some si =>
      dsimp only
      split_ifs <;> rfl
  rw [hsnd]
  cases hf : find_time_index m.dates (now - 8 * 3600) with
  | none => simp
  | some si =>
    by_cases hlen : m.normalised_heights.length - si < 112
    · simp [hlen]
    · simp [hlen, not_lt.mp hlen]

/-- The start index chosen by `get_window`: the nearest-date index of the
anchor `now − 8h`, or `0` when the lookup fails. -/
def window_start (m : TideModel) (now : ℤ) : ℕ :=
  match find_time_index m.dates (now - 8 * 3600) with
  | some si => si
  | none => 0

theorem find_time_index_lt_length {dates : List ℤ} {now : ℤ} {i : ℕ}
    (h : find_time_index dates now = some i) : i < dates.length := by
  obtain ⟨p, hp, hp1⟩ := Option.map_eq_some'.mp h
  obtain ⟨hlt, -, -, -⟩ := min_by_key_enum_spec (fun t => (now - t).natAbs) dates 0 p hp
  subst hp1
  exact hlt

theorem window_start_le (m : TideModel) (now : ℤ) :
    window_start m now ≤ m.dates.length := by
  unfold window_start
  cases hf : find_time_index m.dates (now - 8 * 3600) with
  | none => exact Nat.zero_le _
  | some si => exact le_of_lt (find_time_index_lt_length hf)

theorem get_window_fst (m : TideModel) (now : ℤ) :
    (get_window m now).1 =
      { water_mark := m.water_mark
        normalised_heights := m.normalised_heights.drop (window_start m now)
        dates := m.dates.drop (window_start m now)
        extremes := m.extremes
        start_index := window_start m now } := by
  unfold get_window window_start
  dsimp only
  cases find_time_index m.dates (now - 8 * 3600) with
  | none => rfl
  | some si =>
    dsimp only
    split_ifs <;> rfl

/-- On an extreme list with nondecreasing indices, the suffix query of
`TideModelWindow::extremes` agrees with filtering by
`start_index ≤ index`. -/
theorem extremes_query_eq_filter (l : List TideExtremeGraphData) (start : ℕ)
    (hsorted : l.Pairwise (fun a b => a.index ≤ b.index)) :
    extremes_query l start = l.filter (fun e => start ≤ e.index) := by
  induction l with
  | nil => rfl
  | cons e rest ih =>
    rw [List.pairwise_cons] at hsorted
    obtain ⟨hhead, htail⟩ := hsorted
    by_cases hge : start ≤ e.index
    · have hrest : rest.filter (fun a => decide (start ≤ a.index)) = rest :=
        List.filter_eq_self.mpr fun a ha =>
          decide_eq_true (le_trans hge (hhead a ha))
      simp [extremes_query, hge, hrest]
    · simp [extremes_query, hge, ih htail]

/-- A three-sample model with sorted extreme indices, used to exercise the
window invariant on a monotone extremes list. -/
def sortedModelC7 : TideModel :=
  { water_mark := { high_water := 1, low_water := 0, current_water := 2 }
    normalised_heights := [0, 1/2, 1]
    dates := [0, 3600, 7200]
    extremes := [TideExtremeGraphData.mk 1 3600, TideExtremeGraphData.mk 2 7200] }

/-- An eight-sample model whose two extremes arrived latest-first, so the
extreme indices `[5, 2]` are not monotone (the claim admits any extremes
list). -/
def cexModelC7 : TideModel :=
  { water_mark := { high_water := 7, low_water := 0, current_water := 2 }
    normalised_heights := [0, 0, 0, 0, 1, 1, 1, 1]
    dates := [0, 3600, 7200, 10800, 14400, 18000, 21600, 25200]
    extremes := [TideExtremeGraphData.mk 5 18000, TideExtremeGraphData.mk 2 7200] }

/-- C7 (amended): for every window constructed by `get_window` over a model
whose date and height series agree in length — true of every model
`TideModel::new` builds, non-monotone extremes included — `start_index +
len(window) = len(model)`; and whenever the model's extreme indices are
nondecreasing, the window's extreme query is exactly the subset with
`series_index ≥ start_index`.  Without the monotonicity the subset property
fails, see the counterexample. -/
theorem C7_window_invariant (m : TideModel) (now : ℤ)
    (hlen : m.dates.length = m.normalised_heights.length) :
    ((get_window m now).1.start_index + (get_window m now).1.normalised_heights.length
        = m.normalised_heights.length) ∧
    (m.extremes.Pairwise (fun a b => a.index ≤ b.index) →
      (get_window m now).1.extremes_view
        = m.extremes.filter (fun e => (get_window m now).1.start_index ≤ e.index)) := by
  rw [get_window_fst]
  dsimp only
  constructor
  · rw [List.length_drop]
    have hstart : window_start m now ≤ m.normalised_heights.length :=
      hlen ▸ window_start_le m now
    omega
  · intro hsorted
    exact extremes_query_eq_filter m.extremes _ hsorted

/-- C7 witness: the length invariant instantiated both on the sorted model
(`1 + 2 = 3`, with the subset equality) and on the non-monotone
counterexample model (`3 + 5 = 8`). -/
theorem C7_witness :
    (sortedModelC7.dates.length = sortedModelC7.normalised_heights.length ∧
      cexModelC7.dates.length = cexModelC7.normalised_heights.length ∧
      sortedModelC7.extremes.Pairwise (fun a b => a.index ≤ b.index)) ∧
    ((get_window sortedModelC7 32400).1.start_index +
      (get_window sortedModelC7 32400).1.normalised_heights.length = 3) ∧
    ((get_window cexModelC7 39600).1.start_index +
      (get_window cexModelC7 39600).1.normalised_heights.length = 8) ∧
    (get_window sortedModelC7 32400).1.extremes_view
      = sortedModelC7.extremes.filter
          (fun e => (get_window sortedModelC7 32400).1.start_index ≤ e.index) := by
  refine ⟨⟨by decide, by decide, by decide⟩, ?_, ?_, ?_⟩
  · have h := (C7_window_invariant sortedModelC7 32400 (by decide)).1
    simpa [sortedModelC7] using h
  · have h := (C7_window_invariant cexModelC7 39600 (by decide)).1
    simpa [cexModelC7] using h
  · exact (C7_window_invariant sortedModelC7 32400 (by decide)).2 (by decide)

/-- C7 counterexample: on `cexModelC7` the window anchored at index 3
queries its extremes and receives an entry with `series_index = 2 < 3 =
start_index`: the claimed subset property fails for a non-monotone extremes
list. -/
theorem C7_counterexample :
    (get_window cexModelC7 39600).1.start_index = 3 ∧
    ∃ e ∈ (get_window cexModelC7 39600).1.extremes_view, e.index < 3 := by
  refine ⟨by decide, ?_⟩
  refine ⟨TideExtremeGraphData.mk 2 7200, ?_, by decide⟩
  decide

/-! ### display.rs -/

def SCREEN_WIDTH : ℕ := 128

def SCREEN_HEIGHT : ℕ := 32

/-- The fixed 3×3 structuring mask `FLOOD_FILL_MASK`. -/
def FLOOD_FILL_MASK : List ℕ := [0, 1, 0, 1, 1, 1, 1, 1, 1]

/-- Model of `display::calculate_pixel`: 1 when the column is out of range
(boundary = solid) or the row is at or below the wave row.  The source's
`u32` values `px_height` and `y_pos` stay in `[0, bounds_h]`, so signed
arithmetic is faithful. -/
def calculate_pixel (normalized_heights : List ℚ) (bounds_h : ℕ) (x y : ℤ) : ℕ :=
  if x < 0 ∨ (normalized_heights.length : ℤ) ≤ x then 1
  else
    let height := normalized_heights.getD x.toNat 0
    let px_height := lerp height 0 (bounds_h : ℤ)
    let y_pos := (bounds_h : ℤ) - px_height
    if y_pos ≤ y then 1 else 0

/-- Model of `display::should_erase`: succeeds unless some mask-1 position has
kernel bit 0 (the loop's early `return false`). -/
def should_erase (kernel mask : List ℕ) : Bool :=
  (List.range 9).all fun i =>
    ((kernel.getD i 0 &&& mask.getD i 0) ^^^ mask.getD i 0) != 1

/-- The 3×3 neighborhood of `calculate_pixel` values centered at `(x, y)`,
in the order built in `GraphCanvas::paint`. -/
def kernel_at (heights : List ℚ) (bounds_h : ℕ) (x y : ℤ) : List ℕ :=
  [ calculate_pixel heights bounds_h (x - 1) (y - 1)
  , calculate_pixel heights bounds_h x (y - 1)
  , calculate_pixel heights bounds_h (x + 1) (y - 1)
  , calculate_pixel heights bounds_h (x - 1) y
  , calculate_pixel heights bounds_h x y
  , calculate_pixel heights bounds_h (x + 1) y
  , calculate_pixel heights bounds_h (x - 1) (y + 1)
  , calculate_pixel heights bounds_h x (y + 1)
  , calculate_pixel heights bounds_h (x + 1) (y + 1) ]

/-- The past-erase pass of `GraphCanvas::paint`: the pixel at window
coordinates `(col, row)` is forced to background iff the column is strictly
left of the play-head column, the row is in the graph region, and
`should_erase` accepts its 3×3 neighborhood.  (Writes whose screen
coordinates fall outside the device are skipped by the pass; the erase
decision itself is as below.) -/
def erased_at (heights : List ℚ) (bounds_h current_index col row : ℕ) : Prop :=
  col < current_index ∧ row < bounds_h ∧
    should_erase (kernel_at heights bounds_h (col : ℤ) (row : ℤ)) FLOOD_FILL_MASK = true

theorem lerp_quarter_of_four : lerp 4⁻¹ 0 4 = 1 := by
  norm_num [lerp, clamp_val, f32_round]

theorem lerp_half_of_four : lerp 2⁻¹ 0 4 = 2 := by
  norm_num [lerp, clamp_val, f32_round]

theorem lerp_threequarter_of_four : lerp (3 / 4) 0 4 = 3 := by
  norm_num [lerp, clamp_val, f32_round]

theorem lerp_one_of_four : lerp 1 0 4 = 4 := by
  norm_num [lerp, clamp_val, f32_round]

/-- C6: the filled predicate is 1 iff the column is outside the series or
the row is at or below `height − lerp(h, 0, height)`; and the 4×4 example
grid produces filled rows `{3}, {2,3}, {1,2,3}, {0,1,2,3}` per column. -/
theorem C6_waveform :
    (∀ (heights : List ℚ) (bounds_h : ℕ) (x y : ℤ),
      calculate_pixel heights bounds_h x y = 1 ↔
        (x < 0 ∨ (heights.length : ℤ) ≤ x ∨
          (bounds_h : ℤ) - lerp (heights.getD x.toNat 0) 0 (bounds_h : ℤ) ≤ y)) ∧
    (List.range 4).map (fun col => (List.range 4).map
        (fun row => calculate_pixel [1/4, 1/2, 3/4, 1] 4 (col : ℤ) (row : ℤ)))
      = [[0, 0, 0, 1], [0, 0, 1, 1], [0, 1, 1, 1], [1, 1, 1, 1]] := by
  constructor
  · intro heights bounds_h x y
    unfold calculate_pixel
    dsimp only
    split_ifs with hout hy
    · exact iff_of_true rfl (by tauto)
    · exact iff_of_true rfl (Or.inr (Or.inr hy))
    · simp only [Nat.zero_ne_one, false_iff]
      push_neg at hout ⊢
      exact ⟨hout.1, hout.2, lt_of_not_le hy⟩
  · simp [calculate_pixel, List.range_succ, List.getD_cons_zero, List.getD_cons_succ,
      lerp_quarter_of_four, lerp_half_of_four, lerp_threequarter_of_four,
      lerp_one_of_four]

theorem calculate_pixel_le_one (heights : List ℚ) (bounds_h : ℕ) (x y : ℤ) :
    calculate_pixel heights bounds_h x y ≤ 1 := by
  unfold calculate_pixel
  dsimp only
  split_ifs <;> omega

theorem kernel_at_getD_le_one (heights : List ℚ) (bounds_h : ℕ) (x y : ℤ) (i : ℕ) :
    (kernel_at heights bounds_h x y).getD i 0 ≤ 1 := by
  rcases i with _ | _ | _ | _ | _ | _ | _ | _ | _ | n <;>
    simp [kernel_at, List.getD_cons_zero, List.getD_cons_succ, calculate_pixel_le_one,
      List.getD]

theorem mask_getD_le_one (i : ℕ) : FLOOD_FILL_MASK.getD i 0 ≤ 1 := by
  rcases i with _ | _ | _ | _ | _ | _ | _ | _ | _ | n <;> simp [FLOOD_FILL_MASK, List.getD]

/-- One position of the erase scan: `(k & m) ^ m ≠ 1` says "if the mask
requires a filled bit here, the kernel has one". -/
theorem erase_bit_iff (k m : ℕ) (hk : k ≤ 1) (hm : m ≤ 1) :
    ((((k &&& m) ^^^ m) != 1) = true) ↔ (m = 1 → k = 1) := by
  interval_cases k <;> interval_cases m <;> decide

/-- Lemma: `should_erase` succeeds exactly when the kernel covers every mask-1
position (the neighborhood is a superset of the mask's required bits). -/
theorem should_erase_iff (kernel : List ℕ) (hk : ∀ i, kernel.getD i 0 ≤ 1) :
    should_erase kernel FLOOD_FILL_MASK = true ↔
      (∀ i, i < 9 → FLOOD_FILL_MASK.getD i 0 = 1 → kernel.getD i 0 = 1) := by
  unfold should_erase
  rw [List.all_eq_true]
  constructor
  · intro h i hi
    exact (erase_bit_iff _ _ (hk i) (mask_getD_le_one i)).mp (h i (List.mem_range.mpr hi))
  · intro h i hi
    exact (erase_bit_iff _ _ (hk i) (mask_getD_le_one i)).mpr (h i (List.mem_range.mp hi))

/-- C1 (amended): a pixel of the past-erase pass is erased iff it lies
strictly left of the play-head column, inside the graph region, and its
3×3 neighborhood has a kernel bit 1 at every mask-1 position — the code
erases when the erosion test passes, keeping the sparse silhouette edges;
kernel `[0,1,1,1,1,1,1,1,1]` IS erased and `[0,0,0,1,1,1,1,1,1]` is NOT. -/
theorem C1_past_erase (heights : List ℚ) (bounds_h current_index col row : ℕ) :
    (erased_at heights bounds_h current_index col row ↔
      col < current_index ∧ row < bounds_h ∧
      ∀ i, i < 9 → FLOOD_FILL_MASK.getD i 0 = 1 →
        (kernel_at heights bounds_h (col : ℤ) (row : ℤ)).getD i 0 = 1) ∧
    should_erase [0, 1, 1, 1, 1, 1, 1, 1, 1] FLOOD_FILL_MASK = true ∧
    should_erase [0, 0, 0, 1, 1, 1, 1, 1, 1] FLOOD_FILL_MASK = false := by
  refine ⟨?_, by decide, by decide⟩
  unfold erased_at
  rw [should_erase_iff _ (fun i => kernel_at_getD_le_one heights bounds_h _ _ i)]

/-- C1 counterexample: the spec's example verdicts are inverted — the
neighborhood `[0,1,1,1,1,1,1,1,1]`, a superset of the mask's 1-positions,
IS erased by the code (`should_erase` = true and the pass writes
background), while `[0,0,0,1,1,1,1,1,1]` is NOT; an interior pixel of a
fully-filled 4×4 region left of the play head is erased. -/
theorem C1_counterexample :
    should_erase [0, 1, 1, 1, 1, 1, 1, 1, 1] FLOOD_FILL_MASK = true ∧
    should_erase [0, 0, 0, 1, 1, 1, 1, 1, 1] FLOOD_FILL_MASK = false ∧
    erased_at [1, 1, 1, 1] 4 3 1 1 := by
  refine ⟨by decide, by decide, ?_⟩
  have hk : kernel_at [1, 1, 1, 1] 4 1 1 = [1, 1, 1, 1, 1, 1, 1, 1, 1] := by
    simp [kernel_at, calculate_pixel, List.getD_cons_zero, List.getD_cons_succ,
      lerp_one_of_four]
  unfold erased_at
  refine ⟨by norm_num, by norm_num, ?_⟩
  rw [show ((1 : ℕ) : ℤ) = 1 by norm_num, hk]
  decide

/-- The play-head pass of `GraphCanvas::paint`: the writes `(x, y,
is_white)` it performs — a dashed column at the nearest-time index,
spanning rows `pos_y .. SCREEN_HEIGHT`, only when the column fits the
screen width. -/
def playhead_writes (pos_x pos_y : ℕ) (dates : List ℤ) (now : ℤ) :
    List (ℕ × ℕ × Bool) :=
  match find_time_index dates now with
  | none => []
  | some index =>
    if pos_x + index < SCREEN_WIDTH then
      (List.range' pos_y (SCREEN_HEIGHT - pos_y)).map
        (fun y => (pos_x + index, y, y % 2 == 0))
    else []

/-- C3 (amended): when the nearest-time index is found and its column is
inside the screen, the play head is a dashed vertical line at that column
whose rows run from the canvas's own y-origin `pos_y` to the bottom of the
device — not from row 0. -/
theorem C3_playhead (pos_x pos_y : ℕ) (dates : List ℤ) (now : ℤ)
    (x y : ℕ) (c : Bool) :
    (x, y, c) ∈ playhead_writes pos_x pos_y dates now ↔
      ∃ index, find_time_index dates now = some index ∧
        pos_x + index < SCREEN_WIDTH ∧ x = pos_x + index ∧
        pos_y ≤ y ∧ y < SCREEN_HEIGHT ∧ c = (y % 2 == 0) := by
  unfold playhead_writes
  cases hf : find_time_index dates now with
  | none => simp
  | some index =>
    dsimp only
    split_ifs with hx
    · constructor
      · intro hmem
        rw [List.mem_map] at hmem
        obtain ⟨m, hm, heq⟩ := hmem
        rw [List.mem_range'_1] at hm
        simp only [Prod.mk.injEq] at heq
        obtain ⟨h1, h2, h3⟩ := heq
        subst h1
        subst h2
        refine ⟨index, rfl, hx, rfl, hm.1, ?_, h3.symm⟩
        have := hm.2
        unfold SCREEN_HEIGHT at this ⊢
        omega
      · rintro ⟨index', hidx, hxb, hxe, hy1, hy2, hc⟩
        injection hidx with hii
        subst hii
        subst hxe
        subst hc
        rw [List.mem_map]
        refine ⟨y, ?_, rfl⟩
        rw [List.mem_range'_1]
        unfold SCREEN_HEIGHT at hy2 ⊢
        omega
    · constructor
      · intro hmem
        simp at hmem
      · rintro ⟨index', hidx, hxb, -⟩
        injection hidx with hii
        subst hii
        exact absurd hxb hx

/-- C3 counterexample: with the deployed canvas origin `(21, 10)` the
play head for a found, in-bounds index writes only rows `10..31`; row 0 is
never written, refuting "every row from 0 to the device height". -/
theorem C3_counterexample :
    find_time_index [(0 : ℤ)] 0 = some 0 ∧
    21 + 0 < SCREEN_WIDTH ∧
    ((21 : ℕ), (10 : ℕ), true) ∈ playhead_writes 21 10 [(0 : ℤ)] 0 ∧
    (playhead_writes 21 10 [(0 : ℤ)] 0).all (fun w => decide (10 ≤ w.2.1)) = true := by
  decide

/-- Rust debug-build `u32` subtraction: `none` models the underflow
panic.  (In release the value wraps instead and the subsequent
`put_pixel` calls leave the canvas.) -/
def checked_sub (a b : ℕ) : Option ℕ := if b ≤ a then some (a - b) else none

/-- The upward scan of `ExtremeLabel::paint`: from the bottom row up, the
first row whose red channel is 0; `highest` keeps its initialisation 0
when every pixel of the column is lit. -/
def find_highest (column : ℕ → ℕ) : ℕ :=
  ((List.range SCREEN_HEIGHT).reverse.find? (fun y => column y == 0)).getD 0

/-- The descender row range `baseline..(highest - 1)` drawn by
`ExtremeLabel::paint`, with the `u32` subtraction `highest - 1` made
explicit. -/
def descender_rows (baseline highest : ℕ) : Option (List ℕ) :=
  (checked_sub highest 1).map (fun hm1 => List.range' baseline (hm1 - baseline))

/-- C8: when the scan finds a boundary row (`highest ≥ 1`) at or above the
underline row the drawn range is empty — a no-op, no write at all; but a
column with no background pixel leaves `highest = 0` and the `u32`
subtraction `highest - 1` underflows: a panic in debug builds (and in
release a wrapped huge range whose writes leave the canvas), contradicting
"draws nothing and does not crash". -/
theorem C8_descender :
    (∀ baseline highest, 1 ≤ highest → highest ≤ baseline + 1 →
      descender_rows baseline highest = some []) ∧
    find_highest (fun _ => 255) = 0 ∧
    (∀ baseline, descender_rows baseline 0 = none) := by
  refine ⟨?_, by decide, ?_⟩
  · intro baseline highest h1 h2
    unfold descender_rows checked_sub
    rw [if_pos h1]
    have hz : highest - 1 - baseline = 0 := by omega
    simp [hz]
  · intro baseline
    rfl

/-- C8 witness: a boundary at row 5 with underline at row 7 draws
nothing; an unfound boundary is the underflowing case. -/
theorem C8_witness :
    descender_rows 7 5 = some [] ∧ descender_rows 3 0 = none :=
  ⟨C8_descender.1 7 5 (by norm_num) (by norm_num), C8_descender.2.2 3⟩

/-- The model `TideModel::new` builds from any response with an empty
sample series. -/
def emptyTideModel : TideModel :=
  { water_mark := { high_water := 0, low_water := 0, current_water := 2 }
    normalised_heights := []
    dates := []
    extremes := [] }

/-- The mark-pixel computation of `WaterMark::paint`: the mark row comes
from `lerp(t, pos_y + h − 1, pos_y)` and the column is shifted one pixel
left when the row coincides with either end cap. -/
def water_mark_pixel (pos_x pos_y bounds_h : ℕ) (t : ℚ) : ℕ × ℕ :=
  let y_pos := (lerp t ((pos_y + bounds_h - 1 : ℕ) : ℤ) (pos_y : ℤ)).toNat
  let mark_y := y_pos
  let mark_x :=
    if mark_y = pos_y ∨ mark_y = pos_y + bounds_h - 1 then pos_x - 1 else pos_x
  (mark_x, mark_y)

theorem f32_round_intCast (n : ℤ) : f32_round (n : ℚ) = n := by
  unfold f32_round
  split_ifs with h
  · rw [show ((n : ℚ) + 1 / 2) = (1 / 2 + (n : ℚ)) by ring, Int.floor_add_int]
    norm_num
  · rw [show ((1 / 2 : ℚ) - n) = (1 / 2 + ((-n : ℤ) : ℚ)) by push_cast; ring,
      Int.floor_add_int]
    have : ⌊(1 / 2 : ℚ)⌋ = 0 := by norm_num
    omega

/-- The `-10` sentinel is clamped to 0 by `lerp`, which therefore returns
its first anchor (the bar-bottom row). -/
theorem lerp_sentinel (lo hi : ℤ) : lerp (-10) lo hi = lo := by
  unfold lerp
  have h01 : clamp_val (-10) 0 1 = 0 := by norm_num [clamp_val]
  dsimp only
  rw [h01, zero_mul, zero_add]
  exact f32_round_intCast lo

theorem TideModel_new_empty (response : TideResponse)
    (hresp : response.heights = []) :
    TideModel.new response = some emptyTideModel := by
  unfold TideModel.new get_water_mark
  rw [hresp]
  simp [min_by_key, emptyTideModel, List.mapM, List.mapM.loop]

/-- C4 (amended): a model built from an empty sample series yields the
sentinel `-10`, strictly below `[0, 1]`; but the gauge's `lerp` clamps the
sentinel to 0, so the mark pixel is drawn at the bar's bottom row, one
pixel left of the bar (at the lower end cap) — on-screen, not off-screen. -/
theorem C4_empty_sentinel (response : TideResponse) (now : ℤ)
    (pos_x pos_y bounds_h : ℕ) (hresp : response.heights = []) :
    TideModel.new response = some emptyTideModel ∧
    get_current_norm_height emptyTideModel now = -10 ∧
    (-10 : ℚ) < 0 ∧
    water_mark_pixel pos_x pos_y bounds_h (get_current_norm_height emptyTideModel now)
      = (pos_x - 1, pos_y + bounds_h - 1) := by
  refine ⟨TideModel_new_empty response hresp, rfl, by norm_num, ?_⟩
  have hs : get_current_norm_height emptyTideModel now = -10 := rfl
  rw [hs]
  unfold water_mark_pixel
  rw [lerp_sentinel]
  simp

/-- C4 witness: the empty response with the deployed gauge geometry
`(17, 10, 2, 22)`. -/
theorem C4_witness :
    TideResponse.nil.heights = [] ∧
    (TideModel.new TideResponse.nil = some emptyTideModel ∧
      get_current_norm_height emptyTideModel 0 = -10 ∧
      (-10 : ℚ) < 0 ∧
      water_mark_pixel 17 10 22 (get_current_norm_height emptyTideModel 0)
        = (17 - 1, 10 + 22 - 1)) :=
  ⟨rfl, C4_empty_sentinel TideResponse.nil 0 17 10 22 rfl⟩

/-- C4 counterexample: for the deployed gauge at `(17, 10)`, width 2,
height 22, the sentinel's mark pixel is written at `(16, 31)` — inside the
128×32 canvas, refuting "renders off-screen / writes no mark pixel inside
the canvas". -/
theorem C4_counterexample :
    TideModel.new TideResponse.nil = some emptyTideModel ∧
    get_current_norm_height emptyTideModel 0 = -10 ∧
    water_mark_pixel 17 10 22 (get_current_norm_height emptyTideModel 0) = (16, 31) ∧
    16 < SCREEN_WIDTH ∧ 31 < SCREEN_HEIGHT := by
  refine ⟨TideModel_new_empty TideResponse.nil rfl, rfl, ?_, by decide, by decide⟩
  have hs : get_current_norm_height emptyTideModel 0 = -10 := rfl
  rw [hs]
  unfold water_mark_pixel
  rw [lerp_sentinel]
  simp

end TideClock
